import Mathlib

/-!
Shallow embedding of the `progsnap2` conversion engine
(`src/converters/progsnap2.py` and `src/converters/blockpy_to_progsnap2.py`)
and proofs about its specified behaviour.

Python strings are modelled as Lean `String`; Python's lexicographic string
comparison (by code point) is re-implemented below (`lexLe`) because the
comparison used by the source (`list.sort(key=...)` / `sorted(...)`) compares
code-point sequences, and that executable form is needed for concrete
evaluation.  Python dicts keyed by strings are modelled as association lists
with dict semantics (`dictInsert`: replace value in place for an existing key,
append a new key at the end), or as Lean functions into `Option` where only
lookups matter.  Machine-level concerns (interning, hashing) are irrelevant:
the source deduplicates by exact equality.
-/

/-- Python lexicographic `<=` on code-point sequences (what `str.__le__` does
for the ASCII data handled by the converter). -/
def lexLe : List Char → List Char → Bool
  | [], _ => true
  | _ :: _, [] => false
  | a :: as, b :: bs =>
    if a.toNat < b.toNat then true
    else if b.toNat < a.toNat then false
    else lexLe as bs

/-- Python string `<=`, by code points. -/
def strLe (a b : String) : Bool := lexLe a.data b.data

theorem lexLe_refl (l : List Char) : lexLe l l = true := by
  induction l with
  | nil => rfl
  | cons a as ih => simp [lexLe, ih]

theorem lexLe_total (a b : List Char) : (lexLe a b || lexLe b a) = true := by
  induction a generalizing b with
  | nil => simp [lexLe]
  | cons x xs ih =>
    cases b with
    | nil => simp [lexLe]
    | cons y ys =>
      simp only [lexLe]
      by_cases h1 : x.toNat < y.toNat
      · simp [h1]
      · by_cases h2 : y.toNat < x.toNat
        · simp [h1, h2]
        · simp [h1, h2, ih ys]

theorem lexLe_trans (a b c : List Char) (h1 : lexLe a b = true)
    (h2 : lexLe b c = true) : lexLe a c = true := by
  induction a generalizing b c with
  | nil => simp [lexLe]
  | cons x xs ih =>
    cases b with
    | nil => simp [lexLe] at h1
    | cons y ys =>
      cases c with
      | nil => simp [lexLe] at h2
      | cons z zs =>
        simp only [lexLe] at h1 h2 ⊢
        by_cases hxy : x.toNat < y.toNat
        · by_cases hyz : y.toNat < z.toNat
          · have hxz : x.toNat < z.toNat := by omega
            simp [hxz]
          · by_cases hzy : z.toNat < y.toNat
            · simp [hyz, hzy] at h2
            · have hxz : x.toNat < z.toNat := by omega
              simp [hxz]
        · by_cases hyx : y.toNat < x.toNat
          · simp [hxy, hyx] at h1
          · by_cases hyz : y.toNat < z.toNat
            · have hxz : x.toNat < z.toNat := by omega
              simp [hxz]
            · by_cases hzy : z.toNat < y.toNat
              · simp [hyz, hzy] at h2
              · have hxz : ¬ x.toNat < z.toNat := by omega
                have hzx : ¬ z.toNat < x.toNat := by omega
                simp only [hxy, hyx, if_false] at h1
                simp only [hyz, hzy, if_false] at h2
                simp only [hxz, hzx, if_false]
                exact ih ys zs h1 h2

/-- Python `str.lower()` restricted to the ASCII data the converter sees. -/
def pyLower (s : String) : String := ⟨s.data.map Char.toLower⟩

/-- Python `str.startswith(p)`. -/
def pyStartsWith (s p : String) : Bool := p.data.isPrefixOf s.data

/-- Helper for `chomp_iso_time_decimal`: truncate a code-point list at the
first dot, returning it unchanged when no dot occurs (which is exactly what
the source's `a_time[:a_time.find('.')]` under the `'.' in a_time` guard
does). -/
def chompChars : List Char → List Char
  | [] => []
  | c :: rest => if c = '.' then [] else c :: chompChars rest

/-- Embeds `chomp_iso_time_decimal` (blockpy_to_progsnap2.py lines 136-140). -/
def chomp_iso_time_decimal (s : String) : String := ⟨chompChars s.data⟩

/-- A cell value of the main table: Python values flowing through the event
rows are strings, integers, or `None`. -/
inductive Val where
  | vstr (s : String)
  | vint (n : Int)
  | vnone
  deriving DecidableEq, Repr

/-- A key of `ProgSnap2.code_files`: the source stores either a raw code
string or a tuple of (filename, contents) pairs (progsnap2.py lines 39-42). -/
inductive Snapshot where
  | str (s : String)
  | dir (files : List (String × String))
  deriving DecidableEq, Repr

/-- The `ARBITRARY_COLUMN_ORDER` constant (progsnap2.py lines 19-29). -/
def ARBITRARY_COLUMN_ORDER : List String :=
  ["EventID", "Order", "SubjectID", "AssignmentID",
   "EventType", "CodeStateID",
   "ClientTimestamp",
   "Score",
   "EditType",
   "CompileMessageType",
   "ExecutionResult",
   "ProgramErrorOutput",
   "InterventionType",
   "InterventionMessage",
   "ServerTimestamp", "ToolInstances"]

/-- One `Event` object (progsnap2.py lines 271-304): the attributes set by
`Event.__init__`.  `_optional_parameters` holds the `**kwargs`; all optional
parameters produced by the converters are strings.  `EventID` is filled from
the class-level counter by `_track_new_event`; `Order` starts as `None`. -/
structure Event where
  ClientTimestamp : String
  ServerTimestamp : String
  SubjectID : String
  AssignmentID : String
  EventType : String
  CodeStateID : Option Nat
  Score : Option Int
  ToolInstances : String
  optional_parameters : List (String × String)
  EventID : Nat
  Order : Option Nat
  deriving DecidableEq, Repr

/-- The per-instance state of a `ProgSnap2` object (progsnap2.py lines
59-69): the event list, the default header, and the code-snapshot store
(`code_files` insertion-ordered dict plus the `CODE_ID` counter). -/
structure ProgSnap2 where
  main_table_header : List String
  main_table : List Event
  code_files : List (Snapshot × Nat)
  CODE_ID : Nat
  deriving DecidableEq, Repr

/-- Embeds `ProgSnap2.__init__` (progsnap2.py lines 59-69): empty table, the
fixed header, and a store seeded with the empty-string snapshot at id 0. -/
def ProgSnap2.init : ProgSnap2 :=
  { main_table_header := ARBITRARY_COLUMN_ORDER
    main_table := []
    code_files := [(Snapshot.str "", 0)]
    CODE_ID := 1 }

/-- Python `code in self.code_files` / `self.code_files[code]` on the
insertion-ordered dict. -/
def lookupSnap : List (Snapshot × Nat) → Snapshot → Option Nat
  | [], _ => none
  | (k, v) :: rest, s => if k = s then some v else lookupSnap rest s

/-- Embeds `ProgSnap2.hash_code_directory` (progsnap2.py lines 248-268):
return the stored id for a known snapshot, otherwise assign `CODE_ID`,
record it, and bump the counter.  Returns the id and the updated store. -/
def ProgSnap2.hash_code_directory (ps : ProgSnap2) (code : Snapshot) :
    Nat × ProgSnap2 :=
  match lookupSnap ps.code_files code with
  | some i => (i, ps)
  | none =>
      (ps.CODE_ID,
       { ps with code_files := ps.code_files ++ [(code, ps.CODE_ID)]
                 CODE_ID := ps.CODE_ID + 1 })

/-- Argument of `ProgSnap2.log_code_state`: either a raw code string or a
dict mapping local filenames to paths inside the zip archive. -/
inductive Submission where
  | str (s : String)
  | dict (files : List (String × String))

/-- Embeds `ProgSnap2.log_code_state` (progsnap2.py lines 224-246); `zipped`
is the archive-content resolution callback (`load_file_contents`).  Note the
source declares `zipped` as a required positional parameter with no
default.  Pair sorting (`tuple(sorted(code))`) compares (path, contents)
pairs lexicographically. -/
def ProgSnap2.log_code_state (ps : ProgSnap2) (submission : Submission)
    (zipped : String → String) : Nat × ProgSnap2 :=
  match submission with
  | .str code => ps.hash_code_directory (Snapshot.str code)
  | .dict files =>
      let code := files.map (fun p => (p.1, zipped p.2))
      ps.hash_code_directory (Snapshot.dir (code.mergeSort
        (fun a b => if a.1 = b.1 then strLe a.2 b.2 else strLe a.1 b.1)))

/-- Run a sequence of registrations against a store, discarding the returned
ids: the reachable states of the code-snapshot store within one run. -/
def registerList (ps : ProgSnap2) : List Snapshot → ProgSnap2
  | [] => ps
  | s :: rest => registerList (ps.hash_code_directory s).2 rest

theorem lookupSnap_eq_none {fs : List (Snapshot × Nat)} {s : Snapshot}
    (h : lookupSnap fs s = none) : s ∉ fs.map Prod.fst := by
  induction fs with
  | nil => simp
  | cons p rest ih =>
    obtain ⟨k, v⟩ := p
    simp only [lookupSnap] at h
    by_cases hk : k = s
    · simp [hk] at h
    · simp only [List.map_cons, List.mem_cons]
      push_neg
      refine ⟨fun hs => hk hs.symm, ih ?_⟩
      simpa [hk] using h

theorem lookupSnap_mem {fs : List (Snapshot × Nat)} {s : Snapshot} {i : Nat}
    (h : lookupSnap fs s = some i) : (s, i) ∈ fs := by
  induction fs with
  | nil => simp [lookupSnap] at h
  | cons p rest ih =>
    obtain ⟨k, v⟩ := p
    simp only [lookupSnap] at h
    by_cases hk : k = s
    · simp [hk] at h
      simp [hk, h]
    · simp only [List.mem_cons]
      exact Or.inr (ih (by simpa [hk] using h))

theorem mem_lookupSnap {fs : List (Snapshot × Nat)} {s : Snapshot} {i : Nat}
    (hmem : (s, i) ∈ fs) (hnd : (fs.map Prod.fst).Nodup) :
    lookupSnap fs s = some i := by
  induction fs with
  | nil => simp at hmem
  | cons p rest ih =>
    obtain ⟨k, v⟩ := p
    simp only [List.map_cons, List.nodup_cons] at hnd
    rcases List.mem_cons.mp hmem with heq | htail
    · cases heq
      simp [lookupSnap]
    · have hk : k ≠ s := by
        intro hks
        exact hnd.1 (hks ▸ (List.mem_map_of_mem Prod.fst htail))
      simp [lookupSnap, hk, ih htail hnd.2]

/-- Representation invariant of the code-snapshot store: the dict keys are
distinct and the assigned ids, read in insertion order, are exactly
`0, 1, ..., CODE_ID - 1`. -/
def StoreInv (ps : ProgSnap2) : Prop :=
  (ps.code_files.map Prod.fst).Nodup ∧
  ps.code_files.map Prod.snd = List.range ps.CODE_ID

theorem storeInv_init : StoreInv ProgSnap2.init := by
  constructor <;> simp [ProgSnap2.init, List.range_succ]

theorem storeInv_register {ps : ProgSnap2} (h : StoreInv ps) (s : Snapshot) :
    StoreInv (ps.hash_code_directory s).2 := by
  unfold ProgSnap2.hash_code_directory
  cases hl : lookupSnap ps.code_files s with
  | some i => exact h
  | none =>
    refine ⟨?_, ?_⟩
    · simp only [List.map_append, List.map_cons, List.map_nil]
      rw [List.nodup_append]
      exact ⟨h.1, List.nodup_singleton s,
        by simpa using fun hs => lookupSnap_eq_none hl hs⟩
    · simp only [List.map_append, List.map_cons, List.map_nil]
      rw [h.2, ← List.range_succ]

theorem storeInv_registerList {ps : ProgSnap2} (h : StoreInv ps)
    (l : List Snapshot) : StoreInv (registerList ps l) := by
  induction l generalizing ps with
  | nil => exact h
  | cons s rest ih => exact ih (storeInv_register h s)

theorem register_of_mem {ps : ProgSnap2} {s : Snapshot} {i : Nat}
    (h : StoreInv ps) (hmem : (s, i) ∈ ps.code_files) :
    ps.hash_code_directory s = (i, ps) := by
  unfold ProgSnap2.hash_code_directory
  rw [mem_lookupSnap hmem h.1]

theorem register_mem_self (ps : ProgSnap2) (s : Snapshot) :
    (s, (ps.hash_code_directory s).1) ∈ (ps.hash_code_directory s).2.code_files := by
  unfold ProgSnap2.hash_code_directory
  cases hl : lookupSnap ps.code_files s with
  | some i => exact lookupSnap_mem hl
  | none => simp

theorem mem_register_of_mem {ps : ProgSnap2} {s : Snapshot} {i : Nat}
    (hmem : (s, i) ∈ ps.code_files) (t : Snapshot) :
    (s, i) ∈ (ps.hash_code_directory t).2.code_files := by
  unfold ProgSnap2.hash_code_directory
  cases lookupSnap ps.code_files t with
  | some j => exact hmem
  | none => simp [hmem]

theorem mem_registerList_of_mem {ps : ProgSnap2} {s : Snapshot} {i : Nat}
    (hmem : (s, i) ∈ ps.code_files) (l : List Snapshot) :
    (s, i) ∈ (registerList ps l).code_files := by
  induction l generalizing ps with
  | nil => exact hmem
  | cons t rest ih => exact ih (mem_register_of_mem hmem t)

theorem id_lt_CODE_ID {ps : ProgSnap2} {s : Snapshot} {i : Nat}
    (h : StoreInv ps) (hmem : (s, i) ∈ ps.code_files) : i < ps.CODE_ID := by
  have : i ∈ ps.code_files.map Prod.snd := List.mem_map_of_mem Prod.snd hmem
  rw [h.2] at this
  exact List.mem_range.mp this

theorem snd_nodup_mem_unique {fs : List (Snapshot × Nat)}
    (hnd : (fs.map Prod.snd).Nodup) {s t : Snapshot} {i : Nat}
    (hs : (s, i) ∈ fs) (ht : (t, i) ∈ fs) : s = t := by
  induction fs with
  | nil => simp at hs
  | cons p rest ih =>
    obtain ⟨k, v⟩ := p
    simp only [List.map_cons, List.nodup_cons] at hnd
    rcases List.mem_cons.mp hs with hs1 | hs2 <;>
      rcases List.mem_cons.mp ht with ht1 | ht2
    · rw [Prod.mk.injEq] at hs1 ht1
      rw [hs1.1, ht1.1]
    · exfalso
      rw [Prod.mk.injEq] at hs1
      exact hnd.1 (hs1.2 ▸ List.mem_map_of_mem Prod.snd ht2)
    · exfalso
      rw [Prod.mk.injEq] at ht1
      exact hnd.1 (ht1.2 ▸ List.mem_map_of_mem Prod.snd hs2)
    · exact ih hnd.2 hs2 ht2

theorem snd_injective_of_inv {ps : ProgSnap2} (h : StoreInv ps)
    {s t : Snapshot} {i : Nat} (hs : (s, i) ∈ ps.code_files)
    (ht : (t, i) ∈ ps.code_files) : s = t :=
  snd_nodup_mem_unique (by rw [h.2]; exact List.nodup_range _) hs ht

theorem register_again_eq {ps : ProgSnap2} (inv : StoreInv ps) (s : Snapshot) :
    ((ps.hash_code_directory s).2.hash_code_directory s).1 =
      (ps.hash_code_directory s).1 := by
  have h := register_of_mem (storeInv_register inv s) (register_mem_self ps s)
  rw [h]

theorem register_fst_some {ps : ProgSnap2} {s : Snapshot} {i : Nat}
    (hl : lookupSnap ps.code_files s = some i) :
    ps.hash_code_directory s = (i, ps) := by
  unfold ProgSnap2.hash_code_directory
  rw [hl]

theorem register_fst_none {ps : ProgSnap2} {s : Snapshot}
    (hl : lookupSnap ps.code_files s = none) :
    (ps.hash_code_directory s).1 = ps.CODE_ID := by
  unfold ProgSnap2.hash_code_directory
  rw [hl]

theorem register_distinct_ne {ps : ProgSnap2} (inv : StoreInv ps)
    {s t : Snapshot} (hst : s ≠ t) :
    ((ps.hash_code_directory s).2.hash_code_directory t).1 ≠
      (ps.hash_code_directory s).1 := by
  have inv1 : StoreInv (ps.hash_code_directory s).2 := storeInv_register inv s
  have hs1 : (s, (ps.hash_code_directory s).1) ∈
      (ps.hash_code_directory s).2.code_files := register_mem_self ps s
  cases hl : lookupSnap (ps.hash_code_directory s).2.code_files t with
  | some j =>
    rw [register_fst_some hl]
    intro heq
    exact hst (snd_injective_of_inv inv1 hs1 (heq ▸ lookupSnap_mem hl))
  | none =>
    rw [register_fst_none hl]
    have := id_lt_CODE_ID inv1 hs1
    omega

theorem registerList_head {x : Snapshot × Nat} {ps : ProgSnap2}
    (h : ∃ rest, ps.code_files = x :: rest) (l : List Snapshot) :
    ∃ rest, (registerList ps l).code_files = x :: rest := by
  induction l generalizing ps with
  | nil => exact h
  | cons s ls ih =>
    refine ih ?_
    obtain ⟨rest, hr⟩ := h
    unfold ProgSnap2.hash_code_directory
    cases lookupSnap ps.code_files s with
    | some i => exact ⟨rest, hr⟩
    | none => exact ⟨rest ++ [(s, ps.CODE_ID)], by simp [hr]⟩

/-- C5: on any reachable store state, registering the same canonicalized
snapshot twice returns the same id, registering two different snapshots
returns two different ids, the empty (no-code) snapshot is the store's
seed entry and always gets id 0, and the ids read in first-seen (insertion)
order are exactly `0, 1, ..., CODE_ID - 1`, i.e. assigned sequentially
starting at 1 after the empty snapshot's 0. -/
theorem snapshot_store_dedup (l : List Snapshot) (s t : Snapshot)
    (hst : s ≠ t) :
    ((registerList ProgSnap2.init l).hash_code_directory (Snapshot.str "")).1
        = 0 ∧
    (((registerList ProgSnap2.init l).hash_code_directory s).2.hash_code_directory
        s).1 = ((registerList ProgSnap2.init l).hash_code_directory s).1 ∧
    (((registerList ProgSnap2.init l).hash_code_directory s).2.hash_code_directory
        t).1 ≠ ((registerList ProgSnap2.init l).hash_code_directory s).1 ∧
    (∃ rest, (registerList ProgSnap2.init l).code_files =
        (Snapshot.str "", 0) :: rest) ∧
    (registerList ProgSnap2.init l).code_files.map Prod.snd =
        List.range (registerList ProgSnap2.init l).CODE_ID := by
  have inv : StoreInv (registerList ProgSnap2.init l) :=
    storeInv_registerList storeInv_init l
  have hhead : ∃ rest, (registerList ProgSnap2.init l).code_files =
      (Snapshot.str "", 0) :: rest :=
    registerList_head ⟨[], rfl⟩ l
  refine ⟨?_, register_again_eq inv s, register_distinct_ne inv hst, hhead,
    inv.2⟩
  obtain ⟨rest, hr⟩ := hhead
  have hmem : (Snapshot.str "", 0) ∈ (registerList ProgSnap2.init l).code_files := by
    rw [hr]; exact List.mem_cons_self _ _
  rw [register_of_mem inv hmem]

/-- Closed instantiation of `snapshot_store_dedup` at a concrete reachable
store and two concrete distinct snapshots. -/
theorem snapshot_store_dedup_witness :
    (Snapshot.str "print(1)" ≠ Snapshot.str "print(2)") ∧
    (((registerList ProgSnap2.init [Snapshot.str "x"]).hash_code_directory
        (Snapshot.str "")).1 = 0 ∧
     (((registerList ProgSnap2.init [Snapshot.str "x"]).hash_code_directory
        (Snapshot.str "print(1)")).2.hash_code_directory
        (Snapshot.str "print(1)")).1 =
       ((registerList ProgSnap2.init [Snapshot.str "x"]).hash_code_directory
        (Snapshot.str "print(1)")).1 ∧
     (((registerList ProgSnap2.init [Snapshot.str "x"]).hash_code_directory
        (Snapshot.str "print(1)")).2.hash_code_directory
        (Snapshot.str "print(2)")).1 ≠
       ((registerList ProgSnap2.init [Snapshot.str "x"]).hash_code_directory
        (Snapshot.str "print(1)")).1 ∧
     (∃ rest, (registerList ProgSnap2.init [Snapshot.str "x"]).code_files =
        (Snapshot.str "", 0) :: rest) ∧
     (registerList ProgSnap2.init [Snapshot.str "x"]).code_files.map Prod.snd =
        List.range (registerList ProgSnap2.init [Snapshot.str "x"]).CODE_ID) :=
  ⟨by decide,
   snapshot_store_dedup [Snapshot.str "x"] (Snapshot.str "print(1)")
     (Snapshot.str "print(2)") (by decide)⟩

/-- C9: invariant of the code-snapshot store over any registration sequence
on one `ProgSnap2` instance: the snapshot-to-id map is injective (distinct
stored snapshots have distinct ids), its id set is exactly
`{0, 1, ..., CODE_ID - 1}`, and entries are never removed or remapped — once
a snapshot holds an id, any later registration of that snapshot returns the
same id. -/
theorem snapshot_store_invariant (l : List Snapshot) :
    ((registerList ProgSnap2.init l).code_files.map Prod.fst).Nodup ∧
    (registerList ProgSnap2.init l).code_files.map Prod.snd =
      List.range (registerList ProgSnap2.init l).CODE_ID ∧
    (∀ s t : Snapshot, ∀ i : Nat,
      (s, i) ∈ (registerList ProgSnap2.init l).code_files →
      (t, i) ∈ (registerList ProgSnap2.init l).code_files → s = t) ∧
    (∀ s : Snapshot, ∀ i : Nat,
      (s, i) ∈ (registerList ProgSnap2.init l).code_files →
      ∀ l2 : List Snapshot,
        (s, i) ∈ (registerList (registerList ProgSnap2.init l) l2).code_files ∧
        ((registerList (registerList ProgSnap2.init l) l2).hash_code_directory
          s).1 = i) := by
  have inv : StoreInv (registerList ProgSnap2.init l) :=
    storeInv_registerList storeInv_init l
  refine ⟨inv.1, inv.2, fun s t i hs ht => snd_injective_of_inv inv hs ht,
    fun s i hmem l2 => ?_⟩
  have hmem2 := mem_registerList_of_mem hmem l2
  have inv2 : StoreInv (registerList (registerList ProgSnap2.init l) l2) :=
    storeInv_registerList inv l2
  exact ⟨hmem2, by rw [register_of_mem inv2 hmem2]⟩

/-- Closed instantiation of `snapshot_store_invariant`: after registering
"print(1)", the entry ("print(1)", 1) persists and keeps its id across
further registrations. -/
theorem snapshot_store_invariant_witness :
    ((Snapshot.str "print(1)", 1) ∈
      (registerList ProgSnap2.init [Snapshot.str "print(1)"]).code_files) ∧
    ((Snapshot.str "print(1)", 1) ∈
      (registerList (registerList ProgSnap2.init [Snapshot.str "print(1)"])
        [Snapshot.str "q", Snapshot.str "print(1)"]).code_files ∧
     ((registerList (registerList ProgSnap2.init [Snapshot.str "print(1)"])
        [Snapshot.str "q", Snapshot.str "print(1)"]).hash_code_directory
        (Snapshot.str "print(1)")).1 = 1) :=
  ⟨by decide,
   (snapshot_store_invariant [Snapshot.str "print(1)"]).2.2.2
     (Snapshot.str "print(1)") 1 (by decide)
     [Snapshot.str "q", Snapshot.str "print(1)"]⟩

/-- A standardized event description returned by the classifier: the dicts
built in `map_blockpy_event_to_progsnap` carry an `EventType`, optionally a
`Score` (a Python int), and further string-valued entries that flow into the
`**kwargs` of `Event.__init__` when spread into `log_event`. -/
structure PSDescriptor where
  EventType : String
  Score : Option Int
  extras : List (String × String)
  deriving DecidableEq, Repr

/-- Embeds `map_blockpy_event_to_progsnap` (blockpy_to_progsnap2.py lines
142-217).  `Except.error` models `raise UnclassifiedEventType((event, action,
body))`; `Except.ok none` models the explicit `return None` drops.  The
source wraps plain strings into one-key dicts later (line 236-237), so a
plain-string return is embedded as a descriptor with no extras. -/
def map_blockpy_event_to_progsnap (event action body : String) :
    Except (String × String × String) (Option PSDescriptor) :=
  if event = "code" ∧ action = "set" then
    .ok (some ⟨"File.Edit", none, [("EditType", "GenericEdit")]⟩)
  else if event = "editor" then
    if action = "load" then .ok (some ⟨"Session.Start", none, []⟩)
    else if action = "reset" then
      .ok (some ⟨"File.Edit", none, [("EditType", "Reset")]⟩)
    else if action = "blocks" then .ok (some ⟨"X-View.Blocks", none, []⟩)
    else if action = "text" then .ok (some ⟨"X-View.Text", none, []⟩)
    else if action = "split" then .ok (some ⟨"X-View.Split", none, []⟩)
    else if action = "instructor" then .ok (some ⟨"X-View.Settings", none, []⟩)
    else if action = "history" then .ok (some ⟨"X-View.History", none, []⟩)
    else if action = "trace" then .ok (some ⟨"X-View.Trace", none, []⟩)
    else if action = "upload" then .ok (some ⟨"X-File.Upload", none, []⟩)
    else if action = "download" then .ok (some ⟨"X-File.Download", none, []⟩)
    else if action = "changeIP" then .ok (some ⟨"X-Session.Move", none, []⟩)
    else if action = "import" then .ok (some ⟨"X-Dataset.Import", none, []⟩)
    else if action = "run" ∨ action = "on_run" then .ok none
    else .error (event, action, body)
  else if event = "trace_step" then .ok (some ⟨"X-View.Step", none, []⟩)
  else if event = "feedback" then
    if pyStartsWith (pyLower action) "analyzer|" then
      .ok (some ⟨"Intervention", none,
        [("InterventionType", "Analyzer"),
         ("InterventionMessage", action ++ "|" ++ body)]⟩)
    else if pyLower action = "editor error" ∨
        pyStartsWith (pyLower action) "syntax|" then
      .ok (some ⟨"Compile.Error", none,
        [("CompileMessageType", action ++ "|" ++ body)]⟩)
    else if pyStartsWith (pyLower action) "complete|" then
      .ok (some ⟨"Run.Program", some 1, [("ExecutionResult", "Success")]⟩)
    else if pyStartsWith (pyLower action) "runtime|" ∨
        pyLower action = "runtime" then
      .ok (some ⟨"Run.Program", none,
        [("ExecutionResult", "Error"),
         ("ProgramErrorOutput", action ++ "|" ++ body)]⟩)
    else if pyLower action = "internal error" then
      .ok (some ⟨"Run.Program", none,
        [("ExecutionResult", "SystemError"),
         ("ProgramErrorOutput", action ++ "|" ++ body)]⟩)
    else
      .ok (some ⟨"Intervention", none,
        [("InterventionType", "Feedback"),
         ("InterventionMessage", action ++ "|" ++ body)]⟩)
  else if event = "engine" then .ok none
  else if event = "instructor" then .ok none
  else if event = "trace" then .ok none
  else if event = "worked_examples" then .ok none
  else .error (event, action, body)

/-- The (category, action) pairs explicitly enumerated by the classifier's
conditional chain: `code`/`set`; the listed `editor` actions; and the
categories handled wholesale (`trace_step`, `feedback`, `engine`,
`instructor`, `trace`, `worked_examples`). -/
def blockpyEnumerated (event action : String) : Bool :=
  decide (event = "code" ∧ action = "set") ||
  (decide (event = "editor") &&
    decide (action ∈ (["load", "reset", "blocks", "text", "split",
      "instructor", "history", "trace", "upload", "download", "changeIP",
      "import", "run", "on_run"] : List String))) ||
  decide (event = "trace_step") || decide (event = "feedback") ||
  decide (event = "engine") || decide (event = "instructor") ||
  decide (event = "trace") || decide (event = "worked_examples")

/-- The (category, action) pairs the source enumerates as uninteresting,
i.e. the `return None` branches: `editor`/`run`, `editor`/`on_run`, and the
whole `engine`, `instructor`, `trace` and `worked_examples` categories. -/
def blockpyUninteresting (event action : String) : Bool :=
  (decide (event = "editor") && decide (action = "run" ∨ action = "on_run")) ||
  decide (event = "engine") || decide (event = "instructor") ||
  decide (event = "trace") || decide (event = "worked_examples")

/-- Discriminator for the embedded raise-vs-return outcome. -/
def exceptOk {ε α : Type} : Except ε α → Bool
  | .ok _ => true
  | .error _ => false

theorem except_ok_ne_error {ε α : Type} {v : Except ε α}
    (h : exceptOk v = true) (e : ε) : v ≠ Except.error e := by
  intro hx
  rw [hx] at h
  exact Bool.noConfusion h

theorem classifier_ok_of_enumerated {event action : String} (body : String)
    (hen : blockpyEnumerated event action = true)
    (x : String × String × String) :
    map_blockpy_event_to_progsnap event action body ≠ .error x := by
  simp only [blockpyEnumerated, Bool.or_eq_true, Bool.and_eq_true,
    decide_eq_true_eq, List.mem_cons, List.not_mem_nil, or_false] at hen
  rcases hen with
    ((((((⟨rfl, rfl⟩ | ⟨rfl, ha⟩) | rfl) | rfl) | rfl) | rfl) | rfl) | rfl
  · exact except_ok_ne_error (by rfl) x
  · rcases ha with rfl | rfl | rfl | rfl | rfl | rfl | rfl | rfl | rfl | rfl
      | rfl | rfl | rfl | rfl <;> exact except_ok_ne_error (by rfl) x
  · exact except_ok_ne_error (by rfl) x
  · have hred : map_blockpy_event_to_progsnap "feedback" action body =
        (if pyStartsWith (pyLower action) "analyzer|" then
          .ok (some ⟨"Intervention", none,
            [("InterventionType", "Analyzer"),
             ("InterventionMessage", action ++ "|" ++ body)]⟩)
        else if pyLower action = "editor error" ∨
            pyStartsWith (pyLower action) "syntax|" then
          .ok (some ⟨"Compile.Error", none,
            [("CompileMessageType", action ++ "|" ++ body)]⟩)
        else if pyStartsWith (pyLower action) "complete|" then
          .ok (some ⟨"Run.Program", some 1,
            [("ExecutionResult", "Success")]⟩)
        else if pyStartsWith (pyLower action) "runtime|" ∨
            pyLower action = "runtime" then
          .ok (some ⟨"Run.Program", none,
            [("ExecutionResult", "Error"),
             ("ProgramErrorOutput", action ++ "|" ++ body)]⟩)
        else if pyLower action = "internal error" then
          .ok (some ⟨"Run.Program", none,
            [("ExecutionResult", "SystemError"),
             ("ProgramErrorOutput", action ++ "|" ++ body)]⟩)
        else
          .ok (some ⟨"Intervention", none,
            [("InterventionType", "Feedback"),
             ("InterventionMessage", action ++ "|" ++ body)]⟩)) := rfl
    rw [hred]
    split_ifs <;> simp
  · exact except_ok_ne_error (by rfl) x
  · exact except_ok_ne_error (by rfl) x
  · exact except_ok_ne_error (by rfl) x
  · exact except_ok_ne_error (by rfl) x

theorem classifier_error_of_not_enumerated {event action : String}
    (body : String) (hen : blockpyEnumerated event action = false) :
    map_blockpy_event_to_progsnap event action body =
      .error (event, action, body) := by
  have hcs : ¬(event = "code" ∧ action = "set") := by
    rintro ⟨h1, h2⟩
    subst h1
    subst h2
    simp [blockpyEnumerated] at hen
  have hts : ¬event = "trace_step" := by
    intro h
    subst h
    simp [blockpyEnumerated] at hen
  have hfb : ¬event = "feedback" := by
    intro h
    subst h
    simp [blockpyEnumerated] at hen
  have heg : ¬event = "engine" := by
    intro h
    subst h
    simp [blockpyEnumerated] at hen
  have hin : ¬event = "instructor" := by
    intro h
    subst h
    simp [blockpyEnumerated] at hen
  have htc : ¬event = "trace" := by
    intro h
    subst h
    simp [blockpyEnumerated] at hen
  have hwk : ¬event = "worked_examples" := by
    intro h
    subst h
    simp [blockpyEnumerated] at hen
  by_cases hed : event = "editor"
  · subst hed
    have ha01 : ¬action = "load" := by
      intro h
      subst h
      simp [blockpyEnumerated] at hen
    have ha02 : ¬action = "reset" := by
      intro h
      subst h
      simp [blockpyEnumerated] at hen
    have ha03 : ¬action = "blocks" := by
      intro h
      subst h
      simp [blockpyEnumerated] at hen
    have ha04 : ¬action = "text" := by
      intro h
      subst h
      simp [blockpyEnumerated] at hen
    have ha05 : ¬action = "split" := by
      intro h
      subst h
      simp [blockpyEnumerated] at hen
    have ha06 : ¬action = "instructor" := by
      intro h
      subst h
      simp [blockpyEnumerated] at hen
    have ha07 : ¬action = "history" := by
      intro h
      subst h
      simp [blockpyEnumerated] at hen
    have ha08 : ¬action = "trace" := by
      intro h
      subst h
      simp [blockpyEnumerated] at hen
    have ha09 : ¬action = "upload" := by
      intro h
      subst h
      simp [blockpyEnumerated] at hen
    have ha10 : ¬action = "download" := by
      intro h
      subst h
      simp [blockpyEnumerated] at hen
    have ha11 : ¬action = "changeIP" := by
      intro h
      subst h
      simp [blockpyEnumerated] at hen
    have ha12 : ¬action = "import" := by
      intro h
      subst h
      simp [blockpyEnumerated] at hen
    have ha13 : ¬action = "run" := by
      intro h
      subst h
      simp [blockpyEnumerated] at hen
    have ha14 : ¬action = "on_run" := by
      intro h
      subst h
      simp [blockpyEnumerated] at hen
    simp [map_blockpy_event_to_progsnap, hcs, ha01, ha02, ha03, ha04, ha05,
      ha06, ha07, ha08, ha09, ha10, ha11, ha12, ha13, ha14]
  · simp [map_blockpy_event_to_progsnap, hcs, hed, hts, hfb, heg, hin, htc,
      hwk]

/-- C4: every enumerated uninteresting (category, action) pair is dropped
(`return None`) without raising, and the classifier raises
`UnclassifiedEventType` exactly on the (category, action) combinations that
are not explicitly enumerated — there is no silent default mapping. -/
theorem classifier_drop_vs_error (event action body : String) :
    (blockpyUninteresting event action = true →
      map_blockpy_event_to_progsnap event action body = .ok none) ∧
    ((∃ x, map_blockpy_event_to_progsnap event action body = .error x) ↔
      blockpyEnumerated event action = false) := by
  constructor
  · intro hun
    simp only [blockpyUninteresting, Bool.or_eq_true, Bool.and_eq_true,
      decide_eq_true_eq] at hun
    rcases hun with (((⟨rfl, rfl | rfl⟩ | rfl) | rfl) | rfl) | rfl <;> rfl
  · constructor
    · rintro ⟨x, hx⟩
      by_contra hne
      rw [Bool.not_eq_false] at hne
      exact classifier_ok_of_enumerated body hne x hx
    · intro hen
      exact ⟨(event, action, body),
        classifier_error_of_not_enumerated body hen⟩

/-- Closed instantiation of `classifier_drop_vs_error`: the known
uninteresting pair (editor, run) is dropped without raising, and the unknown
pair (mystery, zap) raises. -/
theorem classifier_drop_vs_error_witness :
    (blockpyUninteresting "editor" "run" = true ∧
     map_blockpy_event_to_progsnap "editor" "run" "b" = .ok none) ∧
    (blockpyEnumerated "mystery" "zap" = false ∧
     ∃ x, map_blockpy_event_to_progsnap "mystery" "zap" "b" = .error x) :=
  ⟨⟨by decide, (classifier_drop_vs_error "editor" "run" "b").1 (by decide)⟩,
   ⟨by decide, (classifier_drop_vs_error "mystery" "zap" "b").2.mpr (by decide)⟩⟩

/-- The named arguments of `Event.__init__` (progsnap2.py lines 287-288);
`kwargs` is the `**kwargs` catch-all. -/
structure EventArgs where
  ClientTimestamp : String
  SubjectID : String
  EventType : String
  AssignmentID : String
  ServerTimestamp : String
  ToolInstances : String
  Score : Option Int := none
  CodeStateID : Option Nat := none
  kwargs : List (String × String) := []

/-- Embeds `Event.__init__` together with `Event._track_new_event`
(progsnap2.py lines 287-310): the class-level `MAX_EVENT_ID` counter is
threaded explicitly as `ctr`; the constructed event receives the current
counter value as `EventID`, `Order` starts as `None`, and the counter is
incremented. -/
def Event.make (ctr : Nat) (a : EventArgs) : Event × Nat :=
  ({ ClientTimestamp := a.ClientTimestamp
     ServerTimestamp := a.ServerTimestamp
     SubjectID := a.SubjectID
     AssignmentID := a.AssignmentID
     EventType := a.EventType
     CodeStateID := a.CodeStateID
     Score := a.Score
     ToolInstances := a.ToolInstances
     optional_parameters := a.kwargs
     EventID := ctr
     Order := none }, ctr + 1)

/-- Embeds `ProgSnap2.log_event` (progsnap2.py lines 203-222): construct a
new `Event` (consuming the process-wide `MAX_EVENT_ID` counter `ctr`) and
append it to the main table. -/
def ProgSnap2.log_event (ps : ProgSnap2) (ctr : Nat) (a : EventArgs) :
    Event × ProgSnap2 × Nat :=
  let p := Event.make ctr a
  (p.1, { ps with main_table := ps.main_table ++ [p.1] }, p.2)

/-- A raw BlockPy log record as read by `log_blockpy_event`
(blockpy_to_progsnap2.py lines 219-230): `timestamp` is `None` or a string
(the JSON value may be null). -/
structure Record where
  timestamp : Option String
  event : String
  action : String
  body : String
  date_created : String
  user_id : String
  assignment_id : String

/-- Python truthiness test `not record['timestamp']` combined with the
`== 'None'` comparison (blockpy_to_progsnap2.py line 221). -/
def tsMissing : Option String → Bool
  | none => true
  | some s => decide (s = "") || decide (s = "None")

/-- The Python-level errors `log_blockpy_event` can raise. -/
inductive PyError where
  | unclassified (x : String × String × String)
  | typeError (msg : String)
  deriving DecidableEq, Repr

/-- Embeds `log_blockpy_event` (blockpy_to_progsnap2.py lines 219-252).
`iso` is the external timestamp conversion
`blockpy_timestamp_to_iso8601` (a thin wrapper over the Python `datetime`
library, line 41-53, whose result depends on the host timezone), kept as a
parameter.  Records without a usable timestamp are skipped, returning the
unchanged state together with the (event, action) pair used for reporting.

When the classified event is a `File.Edit`, line 241 executes
`CodeStateID = progsnap.log_code_state(body)`.  `ProgSnap2.log_code_state`
(progsnap2.py line 224) declares two required positional parameters
`(submission, zipped)` and the call supplies only `body`, so Python raises
`TypeError: log_code_state() missing 1 required positional argument:
'zipped'` before any registration or append happens; this is embedded as the
`typeError` outcome. -/
def log_blockpy_event (iso : String → String) (ps : ProgSnap2) (ctr : Nat)
    (r : Record) : Except PyError (ProgSnap2 × Nat × (String × String)) :=
  if tsMissing r.timestamp then .ok (ps, ctr, (r.event, r.action))
  else
    let ClientTimestamp := iso (r.timestamp.getD "")
    let ServerTimestamp := chomp_iso_time_decimal r.date_created
    match map_blockpy_event_to_progsnap r.event r.action r.body with
    | .error x => .error (.unclassified x)
    | .ok none => .ok (ps, ctr, (r.event, r.action))
    | .ok (some desc) =>
      if desc.EventType = "File.Edit" then
        .error (.typeError
          "log_code_state() missing 1 required positional argument: zipped")
      else
        let p := ps.log_event ctr
          { ClientTimestamp := ClientTimestamp
            SubjectID := r.user_id
            AssignmentID := r.assignment_id
            EventType := desc.EventType
            ServerTimestamp := ServerTimestamp
            ToolInstances := "BPY4"
            Score := desc.Score
            CodeStateID := none
            kwargs := desc.extras }
        .ok (p.2.1, p.2.2, (r.event, r.action))

/-- C7: a raw record whose client-facing timestamp is missing (null or the
empty string, i.e. falsy) or equal to the literal string "None" is entirely
skipped by ingestion: the `ProgSnap2` state (so in particular the main
table) and the event-id counter are unchanged, no classification runs, and
only the (event, action) pair is returned for reporting — regardless of the
record's category/action. -/
theorem timestamp_missing_skip (iso : String → String) (ps : ProgSnap2)
    (ctr : Nat) (r : Record)
    (h : r.timestamp = none ∨ r.timestamp = some "" ∨
      r.timestamp = some "None") :
    log_blockpy_event iso ps ctr r = .ok (ps, ctr, (r.event, r.action)) := by
  rcases h with h | h | h <;> simp [log_blockpy_event, tsMissing, h]

/-- Closed instantiation of `timestamp_missing_skip` at a record with
timestamp "None" and a category/action that would otherwise produce an
event. -/
theorem timestamp_missing_skip_witness :
    ((some "None" : Option String) = none ∨
     (some "None" : Option String) = some "" ∨
     (some "None" : Option String) = some "None") ∧
    log_blockpy_event id ProgSnap2.init 0
      ⟨some "None", "editor", "load", "", "2018-10-31 12:00:00", "u1", "a1"⟩ =
      .ok (ProgSnap2.init, 0, ("editor", "load")) :=
  ⟨by decide,
   timestamp_missing_skip id ProgSnap2.init 0
     ⟨some "None", "editor", "load", "", "2018-10-31 12:00:00", "u1", "a1"⟩
     (by decide)⟩

/-- C1 (evaluation at the failing input): a code-set BlockPy record with an
inline code payload and a valid timestamp does not register the payload nor
append a `File.Edit` event: the call `progsnap.log_code_state(body)`
(blockpy_to_progsnap2.py line 241) omits the required `zipped` parameter of
`ProgSnap2.log_code_state` (progsnap2.py line 224), so ingestion raises a
`TypeError` instead. -/
theorem file_edit_registration_type_error :
    log_blockpy_event id ProgSnap2.init 0
      ⟨some "1540999345", "code", "set", "print(1)",
       "2018-10-31 12:00:00.123", "u1", "a1"⟩ =
    .error (.typeError
      "log_code_state() missing 1 required positional argument: zipped") := by
  rfl

/-- A concrete argument record used by the event-id demonstrations. -/
def demoArgs : EventArgs :=
  { ClientTimestamp := "2018-10-31T12:02:25"
    SubjectID := "u1"
    EventType := "Session.Start"
    AssignmentID := "a1"
    ServerTimestamp := "2018-10-31 12:02:25"
    ToolInstances := "BPY4" }

/-- C8 (counterexample): the event-id counter is the class-level
`Event.MAX_EVENT_ID`, which `ProgSnap2.__init__` never resets.  In a process
whose first run logged one event (advancing the counter to 1), the first
event created by a second, freshly-constructed `ProgSnap2` instance receives
`EventID` 1, not 0 — the counter leaks across runs, contradicting the claim
that each run starts again from the initial value. -/
theorem event_id_not_reset_counterexample :
    (ProgSnap2.init.log_event 0 demoArgs).2.2 = 1 ∧
    (ProgSnap2.init.log_event
      ((ProgSnap2.init.log_event 0 demoArgs).2.2) demoArgs).1.EventID = 1 ∧
    (ProgSnap2.init.log_event
      ((ProgSnap2.init.log_event 0 demoArgs).2.2) demoArgs).1.EventID ≠ 0 :=
  ⟨rfl, rfl, by decide⟩

/-- C8 (amended): the event-id counter is process-wide state threaded
through event creation and untouched by `ProgSnap2` construction: every
created event receives the current counter value as its `EventID` and the
counter advances by one, so ids follow creation order across the whole
process, and a freshly constructed instance continues from the current
process counter instead of restarting at 0. -/
theorem event_id_process_wide (ps : ProgSnap2) (ctr : Nat) (a : EventArgs) :
    (ps.log_event ctr a).1.EventID = ctr ∧
    (ps.log_event ctr a).2.2 = ctr + 1 ∧
    (ProgSnap2.init.log_event ctr a).1.EventID = ctr :=
  ⟨rfl, rfl, rfl⟩

/-- Embeds `Event.get_order` (progsnap2.py lines 368-376): the sort key of
an event is its client timestamp string. -/
def Event.get_order (e : Event) : String := e.ClientTimestamp

/-- The comparison `self.main_table.sort(key=Event.get_order)` effectively
uses: ascending Python string order on the keys. -/
def tsLe (a b : Event) : Bool := strLe a.get_order b.get_order

theorem tsLe_trans : ∀ (a b c : Event), tsLe a b → tsLe b c → tsLe a c :=
  fun a b c h1 h2 => lexLe_trans _ _ _ h1 h2

theorem tsLe_total : ∀ (a b : Event), tsLe a b || tsLe b a :=
  fun a b => lexLe_total _ _

/-- The sorting step of `finalize_table` (progsnap2.py line 169): Python
`list.sort` is stable, embedded as the stable `List.mergeSort`. -/
def sortEvents (l : List Event) : List Event := l.mergeSort tsLe

/-- Embeds the first loop of `finalize_table` (progsnap2.py lines 171-178):
record, per (SubjectID, AssignmentID) pair, the first explicitly set
`CodeStateID` in sorted order (the `continue` skips pairs already
recorded); pairs whose events never set one stay absent. -/
def firstCodeStates : List Event → ((String × String) → Option Nat) →
    ((String × String) → Option Nat)
  | [], m => m
  | e :: rest, m =>
    let idr := (e.SubjectID, e.AssignmentID)
    if (m idr).isSome then firstCodeStates rest m
    else
      match e.CodeStateID with
      | some c => firstCodeStates rest (fun x => if x = idr then some c else m x)
      | none => firstCodeStates rest m

/-- The running state of the second loop of `finalize_table` (progsnap2.py
lines 180-201): the dense `order` counter, the `first_code_states` map (which
that loop may still extend with 0-defaults), and the per-pair `code_states`
and `score_state` maps. -/
structure FState where
  ord : Nat
  first : (String × String) → Option Nat
  code_states : (String × String) → Option Nat
  score_state : (String × String) → Option Int

/-- One iteration of the second loop of `finalize_table` (progsnap2.py lines
184-201), including the effect of `Event.set_ordering` (lines 312-323):
an unset score receives the running score, a set one updates it; an unset
snapshot id receives the running snapshot id (seeded from `first`, default
0), a set one updates it; `Order` is assigned from the dense counter. -/
def finalizeStep (st : FState) (e : Event) : Event × FState :=
  let idr := (e.SubjectID, e.AssignmentID)
  let first := if (st.first idr).isSome then st.first
    else fun x => if x = idr then some 0 else st.first x
  let current_code_state := (st.code_states idr).getD ((first idr).getD 0)
  let current_score_state := (st.score_state idr).getD 0
  let scoreNew : Option Int := match e.Score with
    | none => some current_score_state
    | some s => some s
  let current_score_state2 : Int := match e.Score with
    | none => current_score_state
    | some s => s
  let codeNew : Option Nat := match e.CodeStateID with
    | none => some current_code_state
    | some c => some c
  let current_code_state2 : Nat := match e.CodeStateID with
    | none => current_code_state
    | some c => c
  ({ e with Score := scoreNew, CodeStateID := codeNew, Order := some st.ord },
   { ord := st.ord + 1
     first := first
     code_states := fun x =>
       if x = idr then some current_code_state2 else st.code_states x
     score_state := fun x =>
       if x = idr then some current_score_state2 else st.score_state x })

/-- The second loop of `finalize_table` run over a whole (sorted) list. -/
def finalizePass (st : FState) : List Event → List Event
  | [] => []
  | e :: rest =>
    let p := finalizeStep st e
    p.1 :: finalizePass p.2 rest

/-- Embeds `ProgSnap2.finalize_table` (progsnap2.py lines 164-201): sort the
events by client timestamp (stable), seed the first-snapshot map by the
first scan, then walk the sorted list backfilling order, snapshot and
score. -/
def ProgSnap2.finalize_table (ps : ProgSnap2) : ProgSnap2 :=
  let sorted := sortEvents ps.main_table
  let st0 : FState :=
    { ord := 0
      first := firstCodeStates sorted (fun _ => none)
      code_states := fun _ => none
      score_state := fun _ => none }
  { ps with main_table := finalizePass st0 sorted }

theorem finalizePass_length (l : List Event) (st : FState) :
    (finalizePass st l).length = l.length := by
  induction l generalizing st with
  | nil => rfl
  | cons e rest ih => simp [finalizePass, ih]

theorem finalizePass_order (l : List Event) : ∀ (st : FState) (i : Nat)
    (e : Event), (finalizePass st l)[i]? = some e →
    e.Order = some (st.ord + i) := by
  induction l with
  | nil =>
    intro st i e h
    simp [finalizePass] at h
  | cons e0 rest ih =>
    intro st i e h
    cases i with
    | zero =>
      simp only [finalizePass, List.getElem?_cons_zero, Option.some.injEq]
        at h
      rw [← h]
      rfl
    | succ n =>
      simp only [finalizePass, List.getElem?_cons_succ] at h
      have := ih (finalizeStep st e0).2 n e h
      have hord : (finalizeStep st e0).2.ord = st.ord + 1 := rfl
      rw [this, hord]
      congr 1
      omega

theorem finalizePass_map_ts (l : List Event) (st : FState) :
    (finalizePass st l).map Event.ClientTimestamp =
      l.map Event.ClientTimestamp := by
  induction l generalizing st with
  | nil => rfl
  | cons e rest ih =>
    simp only [finalizePass, List.map_cons, ih]
    rfl

theorem finalizeStep_code_states (st : FState) (e : Event) :
    (finalizeStep st e).2.code_states (e.SubjectID, e.AssignmentID) =
      (finalizeStep st e).1.CodeStateID := by
  cases h : e.CodeStateID <;> simp [finalizeStep, h]

theorem finalizeStep_score_state (st : FState) (e : Event) :
    (finalizeStep st e).2.score_state (e.SubjectID, e.AssignmentID) =
      (finalizeStep st e).1.Score := by
  cases h : e.Score <;> simp [finalizeStep, h]

theorem finalizeStep_code_isSome (st : FState) (e : Event) :
    ∃ v, (finalizeStep st e).1.CodeStateID = some v := by
  cases h : e.CodeStateID <;> simp [finalizeStep, h]

theorem finalizeStep_score_isSome (st : FState) (e : Event) :
    ∃ v, (finalizeStep st e).1.Score = some v := by
  cases h : e.Score <;> simp [finalizeStep, h]

theorem finalizeStep_code_of_none (st : FState) (e : Event) {v : Nat}
    (hnone : e.CodeStateID = none)
    (hst : st.code_states (e.SubjectID, e.AssignmentID) = some v) :
    (finalizeStep st e).1.CodeStateID = some v := by
  simp [finalizeStep, hnone, hst]

theorem finalizeStep_score_of_none (st : FState) (e : Event) {v : Int}
    (hnone : e.Score = none)
    (hst : st.score_state (e.SubjectID, e.AssignmentID) = some v) :
    (finalizeStep st e).1.Score = some v := by
  simp [finalizeStep, hnone, hst]

theorem finalizePass_consec : ∀ (l : List Event) (st : FState) (k : Nat)
    (e1 e2 : Event), l[k]? = some e1 → l[k + 1]? = some e2 →
    e1.SubjectID = e2.SubjectID → e1.AssignmentID = e2.AssignmentID →
    ∃ f1 f2, (finalizePass st l)[k]? = some f1 ∧
      (finalizePass st l)[k + 1]? = some f2 ∧
      (e2.CodeStateID = none → f2.CodeStateID = f1.CodeStateID) ∧
      (e2.Score = none → f2.Score = f1.Score) := by
  intro l
  induction l with
  | nil =>
    intro st k e1 e2 h1 h2
    simp at h1
  | cons e0 rest ih =>
    intro st k e1 e2 h1 h2 hs ha
    cases k with
    | zero =>
      cases rest with
      | nil => simp at h2
      | cons e0b rest2 =>
        simp only [List.getElem?_cons_zero, Option.some.injEq] at h1
        simp only [List.getElem?_cons_succ, List.getElem?_cons_zero,
          Option.some.injEq] at h2
        subst h1
        subst h2
        refine ⟨(finalizeStep st e0).1,
          (finalizeStep (finalizeStep st e0).2 e0b).1,
          by simp [finalizePass], by simp [finalizePass], ?_, ?_⟩
        · intro hnone
          obtain ⟨v, hv⟩ := finalizeStep_code_isSome st e0
          have hmap := finalizeStep_code_states st e0
          rw [hv] at hmap
          have hmap2 : (finalizeStep st e0).2.code_states
              (e0b.SubjectID, e0b.AssignmentID) = some v := by
            rw [← hs, ← ha]
            exact hmap
          rw [hv, finalizeStep_code_of_none _ _ hnone hmap2]
        · intro hnone
          obtain ⟨v, hv⟩ := finalizeStep_score_isSome st e0
          have hmap := finalizeStep_score_state st e0
          rw [hv] at hmap
          have hmap2 : (finalizeStep st e0).2.score_state
              (e0b.SubjectID, e0b.AssignmentID) = some v := by
            rw [← hs, ← ha]
            exact hmap
          rw [hv, finalizeStep_score_of_none _ _ hnone hmap2]
    | succ n =>
      simp only [List.getElem?_cons_succ] at h1 h2
      obtain ⟨f1, f2, hf1, hf2, hc, hsc⟩ :=
        ih (finalizeStep st e0).2 n e1 e2 h1 h2 hs ha
      exact ⟨f1, f2, by simpa [finalizePass] using hf1,
        by simpa [finalizePass] using hf2, hc, hsc⟩

theorem finalizePass_pairwise_ts (l : List Event) (st : FState)
    (h : List.Pairwise (fun a b => tsLe a b = true) l) :
    List.Pairwise (fun a b => tsLe a b = true) (finalizePass st l) := by
  have h2 : List.Pairwise (fun x y : String => strLe x y = true)
      (l.map Event.ClientTimestamp) := by
    rw [List.pairwise_map]
    exact h
  rw [← finalizePass_map_ts l st] at h2
  rw [List.pairwise_map] at h2
  exact h2

theorem finalize_table_main (ps : ProgSnap2) :
    ps.finalize_table.main_table =
      finalizePass
        ⟨0, firstCodeStates (sortEvents ps.main_table) (fun _ => none),
         fun _ => none, fun _ => none⟩
        (sortEvents ps.main_table) := rfl

/-- C2: carry-forward correctness of `finalize_table`.  For any two events
that are consecutive in the sorted order (positions k and k+1, which the
finalization assigns as `Order` k and k+1) and belong to the same (subject,
assignment) pair, if the later one had no explicit snapshot id before
finalization its finalized `code_state_id` equals the earlier one's, and
likewise for `score`: the walk maintains a per-pair running snapshot id
(seeded from the pair's first explicitly set id, or 0) and a running score
(seeded at 0), assigning them to events that left the field unset and
updating them from events that set it. -/
theorem carry_forward (ps : ProgSnap2) (k : Nat) (e1 e2 : Event)
    (h1 : (sortEvents ps.main_table)[k]? = some e1)
    (h2 : (sortEvents ps.main_table)[k + 1]? = some e2)
    (hs : e1.SubjectID = e2.SubjectID)
    (ha : e1.AssignmentID = e2.AssignmentID) :
    ∃ f1 f2, ps.finalize_table.main_table[k]? = some f1 ∧
      ps.finalize_table.main_table[k + 1]? = some f2 ∧
      (e2.CodeStateID = none → f2.CodeStateID = f1.CodeStateID) ∧
      (e2.Score = none → f2.Score = f1.Score) ∧
      f1.Order = some k ∧ f2.Order = some (k + 1) := by
  rw [finalize_table_main]
  obtain ⟨f1, f2, hf1, hf2, hc, hsc⟩ :=
    finalizePass_consec (sortEvents ps.main_table)
      ⟨0, firstCodeStates (sortEvents ps.main_table) (fun _ => none),
       fun _ => none, fun _ => none⟩ k e1 e2 h1 h2 hs ha
  refine ⟨f1, f2, hf1, hf2, hc, hsc, ?_, ?_⟩
  · have := finalizePass_order (sortEvents ps.main_table) _ k f1 hf1
    simpa using this
  · have := finalizePass_order (sortEvents ps.main_table) _ (k + 1) f2 hf2
    simpa using this

/-- C3: `Order` is null until finalization (every event constructed by
`log_event` starts with `Order = None`); after `finalize_table` the table
keeps its length, the event at position i carries `Order = i` (so the
orders form the dense range 0..N-1), the finalized table is ordered with
ascending client timestamps, and the stable sort preserves original
insertion order between events with equal timestamps. -/
theorem order_dense_monotone (ps : ProgSnap2) :
    (∀ (ps2 : ProgSnap2) (ctr : Nat) (a : EventArgs),
      ((ps2.log_event ctr a).1).Order = none) ∧
    ps.finalize_table.main_table.length = ps.main_table.length ∧
    (∀ (i : Nat) (e : Event), ps.finalize_table.main_table[i]? = some e →
      e.Order = some i) ∧
    List.Pairwise (fun a b => tsLe a b = true)
      ps.finalize_table.main_table ∧
    (∀ a b : Event, List.Sublist [a, b] ps.main_table →
      a.ClientTimestamp = b.ClientTimestamp →
      List.Sublist [a, b] (sortEvents ps.main_table)) := by
  refine ⟨fun ps2 ctr a => rfl, ?_, ?_, ?_, ?_⟩
  · rw [finalize_table_main, finalizePass_length, sortEvents,
      List.length_mergeSort]
  · intro i e h
    rw [finalize_table_main] at h
    have := finalizePass_order (sortEvents ps.main_table) _ i e h
    simpa using this
  · rw [finalize_table_main]
    exact finalizePass_pairwise_ts _ _
      (List.sorted_mergeSort tsLe_trans tsLe_total ps.main_table)
  · intro a b hsub heq
    have hab : tsLe a b = true := by
      show lexLe a.get_order.data b.get_order.data = true
      have hgo : a.get_order = b.get_order := heq
      rw [hgo]
      exact lexLe_refl _
    exact List.pair_sublist_mergeSort tsLe_trans tsLe_total hab hsub

/-- A File.Edit-like event with an explicit snapshot id and score. -/
def evtA : Event :=
  { ClientTimestamp := "2018-10-31T12:02:25"
    ServerTimestamp := "2018-10-31 12:02:25"
    SubjectID := "u1"
    AssignmentID := "a1"
    EventType := "File.Edit"
    CodeStateID := some 1
    Score := some 1
    ToolInstances := "BPY4"
    optional_parameters := [("EditType", "GenericEdit")]
    EventID := 0
    Order := none }

/-- A later event of the same pair with snapshot and score unset. -/
def evtB : Event :=
  { ClientTimestamp := "2018-10-31T12:02:26"
    ServerTimestamp := "2018-10-31 12:02:26"
    SubjectID := "u1"
    AssignmentID := "a1"
    EventType := "Run.Program"
    CodeStateID := none
    Score := none
    ToolInstances := "BPY4"
    optional_parameters := []
    EventID := 1
    Order := none }

/-- An event sharing `evtB`'s timestamp, inserted after it. -/
def evtC : Event :=
  { evtB with EventID := 2, EventType := "X-View.Blocks" }

/-- A two-event table for the carry-forward demonstration. -/
def demoPS : ProgSnap2 :=
  { ProgSnap2.init with main_table := [evtA, evtB] }

/-- A two-event table whose events share one timestamp. -/
def demoPS3 : ProgSnap2 :=
  { ProgSnap2.init with main_table := [evtB, evtC] }

/-- Closed instantiation of `carry_forward` on a concrete two-event table:
the second event left snapshot and score unset and inherits both from the
first. -/
theorem carry_forward_witness :
    (sortEvents demoPS.main_table)[0]? = some evtA ∧
    (sortEvents demoPS.main_table)[1]? = some evtB ∧
    evtA.SubjectID = evtB.SubjectID ∧
    evtA.AssignmentID = evtB.AssignmentID ∧
    (∃ f1 f2, demoPS.finalize_table.main_table[0]? = some f1 ∧
      demoPS.finalize_table.main_table[0 + 1]? = some f2 ∧
      (evtB.CodeStateID = none → f2.CodeStateID = f1.CodeStateID) ∧
      (evtB.Score = none → f2.Score = f1.Score) ∧
      f1.Order = some 0 ∧ f2.Order = some (0 + 1)) := by
  have hsort : sortEvents demoPS.main_table = [evtA, evtB] :=
    List.mergeSort_of_sorted (by decide)
  refine ⟨by rw [hsort]; rfl, by rw [hsort]; rfl, by decide, by decide, ?_⟩
  exact carry_forward demoPS 0 evtA evtB (by rw [hsort]; rfl)
    (by rw [hsort]; rfl) (by decide) (by decide)

/-- The finalization of `evtB` in the `demoPS3` run. -/
def fEvtB : Event :=
  { evtB with CodeStateID := some 0, Score := some 0, Order := some 0 }

/-- The finalization of `evtC` in the `demoPS3` run. -/
def fEvtC : Event :=
  { evtC with CodeStateID := some 0, Score := some 0, Order := some 1 }

/-- Closed instantiation of `order_dense_monotone` on a concrete table with
a timestamp tie: length preserved, the first finalized event carries order
0, and the tied pair keeps its insertion order through the sort. -/
theorem order_dense_monotone_witness :
    demoPS3.finalize_table.main_table.length = 2 ∧
    demoPS3.finalize_table.main_table[0]? = some fEvtB ∧
    fEvtB.Order = some 0 ∧
    List.Sublist [evtB, evtC] demoPS3.main_table ∧
    evtB.ClientTimestamp = evtC.ClientTimestamp ∧
    List.Sublist [evtB, evtC] (sortEvents demoPS3.main_table) := by
  have hsort : sortEvents demoPS3.main_table = [evtB, evtC] :=
    List.mergeSort_of_sorted (by decide)
  have htab : demoPS3.finalize_table.main_table = [fEvtB, fEvtC] := by
    rw [finalize_table_main, hsort]
    decide
  refine ⟨?_, by rw [htab]; rfl, ?_, List.Sublist.refl _, by decide, ?_⟩
  · rw [(order_dense_monotone demoPS3).2.1]
    decide
  · exact (order_dense_monotone demoPS3).2.2.1 0 _ (by rw [htab]; rfl)
  · exact (order_dense_monotone demoPS3).2.2.2.2 evtB evtC
      (List.Sublist.refl _) (by decide)

/-- Python `list.index` restricted to the guarded use in
`get_parameter_order`. -/
def colIndexOf : List String → String → Option Nat
  | [], _ => none
  | c :: rest, p => if c = p then some 0 else (colIndexOf rest p).map (· + 1)

/-- Embeds `Event.get_parameter_order` (progsnap2.py lines 378-398): the
sort key of a column name is its index in `ARBITRARY_COLUMN_ORDER` paired
with the name, or (length, name) for names outside the fixed order — so
optional columns sort after the required ones, alphabetically. -/
def Event.get_parameter_order (p : String) : Nat × String :=
  match colIndexOf ARBITRARY_COLUMN_ORDER p with
  | some i => (i, p)
  | none => (ARBITRARY_COLUMN_ORDER.length, p)

/-- The comparison realized by `sorted(..., key=Event.get_parameter_order)`
and `header.sort(key=Event.get_parameter_order)`: ascending lexicographic
order on the (index, name) keys. -/
def paramLe (p q : String) : Bool :=
  if (Event.get_parameter_order p).1 = (Event.get_parameter_order q).1 then
    strLe (Event.get_parameter_order p).2 (Event.get_parameter_order q).2
  else decide ((Event.get_parameter_order p).1 <
    (Event.get_parameter_order q).1)

/-- The item comparison induced by `paramLe` on (name, value) dict items. -/
def itemLe (x y : String × Val) : Bool := paramLe x.1 y.1

/-- Python dict update for one key on an insertion-ordered dict: an
existing key keeps its position and receives the new value; a new key is
appended at the end. -/
def dictInsert : List (String × Val) → String → Val → List (String × Val)
  | [], k, v => [(k, v)]
  | (k0, v0) :: rest, k, v =>
    if k0 = k then (k0, v) :: rest else (k0, v0) :: dictInsert rest k v

/-- Python `dict.update`: fold `dictInsert` over the new items. -/
def dictUpdateAll (d : List (String × Val)) :
    List (String × Val) → List (String × Val)
  | [] => d
  | (k, v) :: rest => dictUpdateAll (dictInsert d k v) rest

/-- Python dict lookup on the association-list model. -/
def dictFind : List (String × Val) → String → Option Val
  | [], _ => none
  | (k, v) :: rest, p => if k = p then some v else dictFind rest p

/-- The value of an `Option Nat` attribute as it enters a row. -/
def optNatVal : Option Nat → Val
  | none => Val.vnone
  | some n => Val.vint n

/-- The value of an `Option Int` attribute as it enters a row. -/
def optIntVal : Option Int → Val
  | none => Val.vnone
  | some n => Val.vint n

/-- The `required_columns` dict of `Event.finalize` (progsnap2.py lines
339-341): iterating `ARBITRARY_COLUMN_ORDER` and keeping the names that are
attributes of `Event` (the ten set by `__init__`; `EditType` through
`InterventionMessage` live in `_optional_parameters` instead) yields
exactly these items, in this order. -/
def Event.requiredItems (e : Event) : List (String × Val) :=
  [("EventID", Val.vint e.EventID),
   ("Order", optNatVal e.Order),
   ("SubjectID", Val.vstr e.SubjectID),
   ("AssignmentID", Val.vstr e.AssignmentID),
   ("EventType", Val.vstr e.EventType),
   ("CodeStateID", optNatVal e.CodeStateID),
   ("ClientTimestamp", Val.vstr e.ClientTimestamp),
   ("Score", optIntVal e.Score),
   ("ServerTimestamp", Val.vstr e.ServerTimestamp),
   ("ToolInstances", Val.vstr e.ToolInstances)]

/-- The item list built by `Event.finalize` (progsnap2.py lines 336-344):
copy the defaults, overlay the event's own optional parameters, overlay the
required attribute columns, and stable-sort all items by
`get_parameter_order`. -/
def Event.finalizeItems (e : Event) (defaults : List (String × Val)) :
    List (String × Val) :=
  (dictUpdateAll (dictUpdateAll defaults
      (e.optional_parameters.map (fun p => (p.1, Val.vstr p.2))))
      e.requiredItems).mergeSort itemLe

/-- Embeds `Event.finalize` (progsnap2.py lines 325-346): the returned row
is the values of the sorted item list. -/
def Event.finalize (e : Event) (defaults : List (String × Val)) :
    List Val :=
  (e.finalizeItems defaults).map Prod.snd

/-- Embeds `Event.distill_parameters` (progsnap2.py lines 348-366): the
union of all events' optional parameter names, mapped to the empty string.
Python iterates a set (unspecified order); the embedding keeps first-seen
order, which the downstream dict update plus key sort cannot observe. -/
def Event.distill_parameters (events : List Event) : List (String × Val) :=
  (events.foldl (fun acc e =>
    e.optional_parameters.foldl (fun acc2 p =>
      if p.1 ∈ acc2 then acc2 else acc2 ++ [p.1]) acc) []).map
    (fun n => (n, Val.vstr ""))

/-- Embeds `ProgSnap2.export_main_table` (progsnap2.py lines 100-118)
without the file I/O: the header row and the data rows exactly as written
to `MainTable.csv`.  The header is `main_table_header` (only the 16
required columns) sorted in place by `get_parameter_order`; each data row
is the finalized event's `finalize(optionals)` value list.  The distilled
optional columns are passed to `finalize` but never added to the header. -/
def ProgSnap2.export_main_table (ps : ProgSnap2) :
    List String × List (List Val) :=
  let ps2 := ps.finalize_table
  let optionals := Event.distill_parameters ps2.main_table
  let header := ps2.main_table_header.mergeSort paramLe
  (header, ps2.main_table.map (fun e => e.finalize optionals))

theorem dictInsert_find_self (d : List (String × Val)) (k : String)
    (v : Val) : dictFind (dictInsert d k v) k = some v := by
  induction d with
  | nil => simp [dictInsert, dictFind]
  | cons p rest ih =>
    obtain ⟨k0, v0⟩ := p
    by_cases h : k0 = k <;> simp [dictInsert, dictFind, h, ih]

theorem dictInsert_self_eq (rest : List (String × Val)) (k0 : String)
    (v0 v : Val) :
    dictInsert ((k0, v0) :: rest) k0 v = (k0, v) :: rest := by
  simp [dictInsert]

theorem dictInsert_find_other (d : List (String × Val)) {k k' : String}
    (v : Val) (h : k' ≠ k) :
    dictFind (dictInsert d k v) k' = dictFind d k' := by
  have hk : ¬ (k = k') := fun hh => h hh.symm
  induction d with
  | nil => simp [dictInsert, dictFind, hk]
  | cons p rest ih =>
    obtain ⟨k0, v0⟩ := p
    by_cases h0 : k0 = k
    · subst h0
      rw [dictInsert_self_eq]
      simp [dictFind, hk]
    · by_cases h1 : k0 = k' <;>
        simp [dictInsert, dictFind, h0, h1, h, hk, ih]

theorem mem_keys_dictInsert : ∀ {d : List (String × Val)} {k p : String}
    {v : Val}, p ∈ (dictInsert d k v).map Prod.fst →
    p ∈ d.map Prod.fst ∨ p = k := by
  intro d
  induction d with
  | nil =>
    intro k p v h
    simp only [dictInsert, List.map_cons, List.map_nil, List.mem_cons,
      List.not_mem_nil, or_false] at h
    exact Or.inr h
  | cons q rest ih =>
    intro k p v h
    obtain ⟨k0, v0⟩ := q
    by_cases h0 : k0 = k
    · subst h0
      rw [dictInsert_self_eq] at h
      simp only [List.map_cons, List.mem_cons] at h
      rcases h with h | h
      · exact Or.inl (List.mem_cons.mpr (Or.inl h))
      · exact Or.inl (List.mem_cons.mpr (Or.inr h))
    · simp only [dictInsert, h0, if_false, List.map_cons, List.mem_cons]
        at h
      rcases h with h | h
      · exact Or.inl (List.mem_cons.mpr (Or.inl h))
      · rcases ih h with h2 | h2
        · exact Or.inl (List.mem_cons.mpr (Or.inr h2))
        · exact Or.inr h2

theorem dictInsert_nodup : ∀ {d : List (String × Val)},
    (d.map Prod.fst).Nodup → ∀ (k : String) (v : Val),
    ((dictInsert d k v).map Prod.fst).Nodup := by
  intro d
  induction d with
  | nil =>
    intro _ k v
    simp [dictInsert]
  | cons p rest ih =>
    intro hnd k v
    obtain ⟨k0, v0⟩ := p
    simp only [List.map_cons, List.nodup_cons] at hnd
    by_cases h0 : k0 = k
    · subst h0
      rw [dictInsert_self_eq]
      simp only [List.map_cons, List.nodup_cons]
      exact hnd
    · simp only [dictInsert, h0, if_false, List.map_cons, List.nodup_cons]
      refine ⟨fun hmem => ?_, ih hnd.2 k v⟩
      rcases mem_keys_dictInsert hmem with h2 | h2
      · exact hnd.1 h2
      · exact h0 h2

theorem dictUpdateAll_nodup {d : List (String × Val)}
    (hnd : (d.map Prod.fst).Nodup) (us : List (String × Val)) :
    ((dictUpdateAll d us).map Prod.fst).Nodup := by
  induction us generalizing d with
  | nil => exact hnd
  | cons u rest ih =>
    obtain ⟨k, v⟩ := u
    exact ih (dictInsert_nodup hnd k v)

theorem dictUpdateAll_find_absent : ∀ (us : List (String × Val))
    (d : List (String × Val)) {k : String}, k ∉ us.map Prod.fst →
    dictFind (dictUpdateAll d us) k = dictFind d k
  | [], d, k, _ => rfl
  | (k0, v0) :: rest, d, k, h => by
    simp only [List.map_cons, List.mem_cons] at h
    push_neg at h
    rw [show dictUpdateAll d ((k0, v0) :: rest) =
      dictUpdateAll (dictInsert d k0 v0) rest from rfl]
    rw [dictUpdateAll_find_absent rest (dictInsert d k0 v0) h.2]
    exact dictInsert_find_other d v0 h.1

theorem dictUpdateAll_find_of_mem : ∀ (us : List (String × Val))
    (d : List (String × Val)) {k : String} {v : Val},
    (us.map Prod.fst).Nodup → (k, v) ∈ us →
    dictFind (dictUpdateAll d us) k = some v
  | [], _, _, _, _, hmem => by simp at hmem
  | (k0, v0) :: rest, d, k, v, hnd, hmem => by
    simp only [List.map_cons, List.nodup_cons] at hnd
    rcases List.mem_cons.mp hmem with heq | htail
    · cases heq
      rw [show dictUpdateAll d ((k0, v0) :: rest) =
        dictUpdateAll (dictInsert d k0 v0) rest from rfl]
      rw [dictUpdateAll_find_absent rest _ hnd.1]
      exact dictInsert_find_self d k0 v0
    · exact dictUpdateAll_find_of_mem rest (dictInsert d k0 v0) hnd.2 htail

theorem dictFind_mem : ∀ {d : List (String × Val)} {k : String} {v : Val},
    dictFind d k = some v → (k, v) ∈ d := by
  intro d
  induction d with
  | nil =>
    intro k v h
    simp [dictFind] at h
  | cons p rest ih =>
    intro k v h
    obtain ⟨k0, v0⟩ := p
    by_cases h0 : k0 = k
    · subst h0
      have hfind : dictFind ((k0, v0) :: rest) k0 = some v0 := by
        simp [dictFind]
      rw [hfind, Option.some.injEq] at h
      subst h
      exact List.mem_cons_self _ _
    · simp only [dictFind, h0, if_false] at h
      exact List.mem_cons.mpr (Or.inr (ih h))

theorem mem_dictFind : ∀ {d : List (String × Val)} {k : String} {v : Val},
    (k, v) ∈ d → (d.map Prod.fst).Nodup → dictFind d k = some v := by
  intro d
  induction d with
  | nil =>
    intro k v hmem
    simp at hmem
  | cons p rest ih =>
    intro k v hmem hnd
    obtain ⟨k0, v0⟩ := p
    simp only [List.map_cons, List.nodup_cons] at hnd
    rcases List.mem_cons.mp hmem with heq | htail
    · cases heq
      simp [dictFind]
    · have h0 : ¬ (k0 = k) := by
        intro hk
        exact hnd.1 (hk ▸ List.mem_map_of_mem Prod.fst htail)
      simp only [dictFind, h0, if_false]
      exact ih htail hnd.2

/-- C10: in the row built by `Event.finalize`, a required-column attribute
value overrides any same-named entry among the event's optional parameters
or the passed defaults: the item list underlying the returned row contains
the attribute's (name, value) pair and no other value under that name.
The inputs are left untouched: the source copies the defaults dict
(`dict(default_parameter_values)`, progsnap2.py line 337) and updates only
the copy, which the embedding reflects by being a pure function of the
event and the defaults. -/
theorem finalize_required_overrides (e : Event)
    (defaults : List (String × Val)) (c : String) (v : Val)
    (hnd : (defaults.map Prod.fst).Nodup)
    (hreq : (c, v) ∈ e.requiredItems) :
    (c, v) ∈ e.finalizeItems defaults ∧
    ∀ w, (c, w) ∈ e.finalizeItems defaults → w = v := by
  have hreqnd : (e.requiredItems.map Prod.fst).Nodup := by
    rw [show e.requiredItems.map Prod.fst =
      ["EventID", "Order", "SubjectID", "AssignmentID", "EventType",
       "CodeStateID", "ClientTimestamp", "Score", "ServerTimestamp",
       "ToolInstances"] from rfl]
    decide
  have hnd1 : ((dictUpdateAll defaults
      (e.optional_parameters.map (fun p => (p.1, Val.vstr p.2)))).map
      Prod.fst).Nodup := dictUpdateAll_nodup hnd _
  have hnd2 : ((dictUpdateAll (dictUpdateAll defaults
      (e.optional_parameters.map (fun p => (p.1, Val.vstr p.2))))
      e.requiredItems).map Prod.fst).Nodup := dictUpdateAll_nodup hnd1 _
  have hfind : dictFind (dictUpdateAll (dictUpdateAll defaults
      (e.optional_parameters.map (fun p => (p.1, Val.vstr p.2))))
      e.requiredItems) c = some v :=
    dictUpdateAll_find_of_mem _ _ hreqnd hreq
  have hperm : List.Perm (e.finalizeItems defaults)
      (dictUpdateAll (dictUpdateAll defaults
        (e.optional_parameters.map (fun p => (p.1, Val.vstr p.2))))
        e.requiredItems) := List.mergeSort_perm _ _
  constructor
  · exact hperm.mem_iff.mpr (dictFind_mem hfind)
  · intro w hw
    have hw2 := hperm.mem_iff.mp hw
    have hfw := mem_dictFind hw2 hnd2
    rw [hfind] at hfw
    injection hfw with h2
    exact h2.symm

/-- Closed instantiation of `finalize_required_overrides`: `evtA` carries
Score 1 as an attribute, the defaults dict supplies a clashing "Score"
entry, and the row keeps the attribute value. -/
theorem finalize_required_overrides_witness :
    ((([("Score", Val.vstr "clash"), ("ParentEventID", Val.vstr "")] :
      List (String × Val)).map Prod.fst).Nodup) ∧
    (("Score", Val.vint 1) ∈ evtA.requiredItems) ∧
    (("Score", Val.vint 1) ∈ evtA.finalizeItems
      [("Score", Val.vstr "clash"), ("ParentEventID", Val.vstr "")] ∧
     ∀ w, ("Score", w) ∈ evtA.finalizeItems
      [("Score", Val.vstr "clash"), ("ParentEventID", Val.vstr "")] →
      w = Val.vint 1) :=
  ⟨by decide, by decide,
   finalize_required_overrides evtA
     [("Score", Val.vstr "clash"), ("ParentEventID", Val.vstr "")]
     "Score" (Val.vint 1) (by decide) (by decide)⟩

/-- A one-event table whose event has no optional parameters. -/
def demoPS6 : ProgSnap2 :=
  { ProgSnap2.init with main_table := [evtB] }

theorem finalize_row_length (e : Event) (d : List (String × Val)) :
    (e.finalize d).length =
      (dictUpdateAll (dictUpdateAll d
        (e.optional_parameters.map (fun p => (p.1, Val.vstr p.2))))
        e.requiredItems).length := by
  simp [Event.finalize, Event.finalizeItems]

/-- C6 (evaluation at the failing input): exporting a table whose single
event sets no optional parameter writes a header row of exactly the 16
required column names but a data row of only 10 values (the ten `Event`
attribute columns); `export_main_table` never appends the observed optional
columns to the header, so header and data rows do not line up as the claim
requires. -/
theorem header_row_mismatch :
    demoPS6.export_main_table.1 = ARBITRARY_COLUMN_ORDER ∧
    demoPS6.export_main_table.1.length = 16 ∧
    demoPS6.export_main_table.2.map List.length = [10] := by
  have hsorted : ARBITRARY_COLUMN_ORDER.mergeSort paramLe =
      ARBITRARY_COLUMN_ORDER := List.mergeSort_of_sorted (by decide)
  have hhead : demoPS6.export_main_table.1 =
      ARBITRARY_COLUMN_ORDER.mergeSort paramLe := rfl
  refine ⟨hhead.trans hsorted, ?_, ?_⟩
  · rw [hhead.trans hsorted]
    rfl
  · have hsort1 : sortEvents demoPS6.main_table = [evtB] := by
      show sortEvents [evtB] = [evtB]
      simp [sortEvents]
    have htab : demoPS6.finalize_table.main_table = [fEvtB] := by
      rw [finalize_table_main, hsort1]
      decide
    have hrows : demoPS6.export_main_table.2 =
        demoPS6.finalize_table.main_table.map
          (fun e => e.finalize (Event.distill_parameters
            demoPS6.finalize_table.main_table)) := rfl
    rw [hrows, htab]
    simp only [List.map_cons, List.map_nil]
    rw [finalize_row_length]
    decide
